import Mathlib

/-!
Verification of the two concurrency cores of this repository against their
specification: the stateful batching accumulator (Core A, `stateful`) and the
read-path coalescing cache (Core B, `singleflight`).

The Go source is shallowly embedded: the mutable in-process state (buffer,
per-flush balance map, dirty set, tx-log slice, callback slice) becomes
explicit state passed through pure functions; the accumulator's event loop
becomes a step function over an explicit event trace; `int64` arithmetic is
`Int` with an explicit two's-complement wrap; store failures are modelled by
an explicit failure flag on the transaction, and a committed transaction's
effect on the store of record is a pure function on a `Store` value.
-/

namespace NCD

/-- Two's-complement wrap of Go `int64` addition results: reduce an
unbounded integer into the interval `[-2^63, 2^63)`. -/
def wrap64 (x : Int) : Int := (x + 2 ^ 63) % 2 ^ 64 - 2 ^ 63

abbrev UserID := String

/-- A row of the append-only `point_txs` ledger. Go generates a fresh UUID
per row; the model allocates fresh ids from a counter. -/
structure TxLog where
  txID : Nat
  userID : UserID
  amount : Int
deriving DecidableEq

/-- The store of record: the `user_points` table (rows keyed by user) and
the `point_txs` table. -/
structure Store where
  balances : List (UserID × Int)
  ledger : List TxLog
deriving DecidableEq

def emptyStore : Store := { balances := [], ledger := [] }

/-- Keyed lookup with the Go-map / `sql.ErrNoRows` default: a user with no
row reads as balance `0`. -/
def lookupBal (m : List (UserID × Int)) (u : UserID) : Int :=
  match m.find? (fun q => q.1 == u) with
  | some q => q.2
  | none => 0

/-- Keyed insert-or-update (Go map assignment / `on conflict do update`). -/
def setBal : List (UserID × Int) → UserID → Int → List (UserID × Int)
  | [], u, b => [(u, b)]
  | (k, v) :: rest, u, b =>
    if k = u then (u, b) :: rest else (k, v) :: setBal rest u b

/-- Per-operation error of the accumulator path (field `err` of the Go
`callback` struct); `none` is a successful (`Ok`) completion. -/
inductive Err where
  | insufficientBalance
  | storeFailure
deriving DecidableEq

/-- An operation submitted by a producer (Go `op`); the completion handle is
modelled by tagging each buffered operation with its arrival index. -/
structure Op where
  userID : UserID
  amount : Int
deriving DecidableEq

/-- The in-memory working state of one flush: balance map restored from the
store, dirty user set, accumulated `point_txs` rows, accumulated callbacks
(tagged with each operation's arrival index), and the fresh-id counter. -/
structure FlushAcc where
  state : List (UserID × Int)
  dirty : List UserID
  txLogs : List TxLog
  callbacks : List (Nat × Option Err)
  nextTxID : Nat
deriving DecidableEq

/-- Go `dirty[userID] = struct{}{}`: insert into the dirty set. -/
def markDirty (d : List UserID) (u : UserID) : List UserID :=
  if u ∈ d then d else d ++ [u]

/-- One iteration of the flush loop body over a buffered operation
(`for _, p := range buff { ... }` in `startBgWorker.flush`). -/
def applyOp (acc : FlushAcc) (p : Nat × Op) : FlushAcc :=
  let balance := wrap64 (lookupBal acc.state p.2.userID + p.2.amount)
  if balance < 0 then
    { acc with callbacks := acc.callbacks ++ [(p.1, some Err.insufficientBalance)] }
  else
    { state := setBal acc.state p.2.userID balance
      dirty := markDirty acc.dirty p.2.userID
      txLogs := acc.txLogs ++ [{ txID := acc.nextTxID, userID := p.2.userID, amount := p.2.amount }]
      callbacks := acc.callbacks ++ [(p.1, none)]
      nextTxID := acc.nextTxID + 1 }

def applyOps (acc : FlushAcc) (buff : List (Nat × Op)) : FlushAcc :=
  buff.foldl applyOp acc

/-- `restoreState`: the keyed read `select user_id, balance from user_points
where user_id = any($1)` materialised as the store rows whose key occurs in
the requested key list. -/
def restoreState (rows : List (UserID × Int)) (keys : List UserID) : List (UserID × Int) :=
  rows.filter (fun q => decide (q.1 ∈ keys))

/-- Working state at the start of a flush: balances of the buffered users
restored from the store, everything else empty (`txLogs = txLogs[:0]`,
`callbacks = callbacks[:0]`, fresh dirty set). -/
def initFlushAcc (store : Store) (buff : List (Nat × Op)) (nextTxID : Nat) : FlushAcc :=
  { state := restoreState store.balances (buff.map (fun p => p.2.userID))
    dirty := []
    txLogs := []
    callbacks := []
    nextTxID := nextTxID }

/-- The accumulator state after a flush over `buff` has processed the prefix
`done` of the buffer. -/
def midFlush (store : Store) (n : Nat) (buff done : List (Nat × Op)) : FlushAcc :=
  applyOps (initFlushAcc store buff n) done

/-- Effect of a committed flush transaction on the store:
`batchInsertTxLogs` appends the accumulated ledger rows, `saveDirtyState`
bulk-upserts the balances of the dirty users. -/
def commitFlush (store : Store) (acc : FlushAcc) : Store :=
  { balances := acc.dirty.foldl (fun rows u => setBal rows u (lookupBal acc.state u)) store.balances
    ledger := store.ledger ++ acc.txLogs }

/-- Observable outcome of one `flush()` call: the store after it, the buffer
after it, and the callbacks actually delivered to producers. -/
structure FlushResult where
  store : Store
  buff : List (Nat × Op)
  delivered : List (Nat × Option Err)
  nextTxID : Nat
deriving DecidableEq

/-- `flush()` from `startBgWorker`: no-op on an empty buffer; otherwise run
one transaction over the whole buffer. `txOk = false` models any store error
inside the transaction (read, bulk insert, bulk upsert, or commit): the
transaction rolls back, the error is logged and `flush` returns — delivering
nothing and leaving the buffer in place. On success every buffered
operation's callback is sent and the buffer is truncated. -/
def flush (txOk : Bool) (store : Store) (buff : List (Nat × Op)) (nextTxID : Nat) : FlushResult :=
  match buff with
  | [] => { store := store, buff := buff, delivered := [], nextTxID := nextTxID }
  | _ :: _ =>
    if txOk then
      let acc := applyOps (initFlushAcc store buff nextTxID) buff
      { store := commitFlush store acc, buff := [], delivered := acc.callbacks,
        nextTxID := acc.nextTxID }
    else
      { store := store, buff := buff, delivered := [], nextTxID := nextTxID }

/-- `addPoint`: the stateless per-operation transaction. Returns the store
after the transaction together with the per-operation result. -/
def addPoint (store : Store) (txID : Nat) (userID : UserID) (amount : Int) :
    Store × Option Err :=
  let balance := wrap64 (lookupBal store.balances userID + amount)
  if balance < 0 then
    (store, some Err.insufficientBalance)
  else
    ({ balances := setBal store.balances userID balance
       ledger := store.ledger ++ [{ txID := txID, userID := userID, amount := amount }] },
     none)

/-- State owned by the accumulator loop `startBgWorker`, plus the bookkeeping
needed to observe a run: each arriving operation is tagged with its arrival
index `nArrived`, and `delivered` records every callback ever sent on a
completion handle, tagged with the receiving operation's index. -/
structure LoopState where
  store : Store
  buff : List (Nat × Op)
  delivered : List (Nat × Option Err)
  nArrived : Nat
  nextTxID : Nat
deriving DecidableEq

def buffSize : Nat := 7000

def doFlush (txOk : Bool) (s : LoopState) : LoopState :=
  let r := flush txOk s.store s.buff s.nextTxID
  { s with
    store := r.store
    buff := r.buff
    delivered := s.delivered ++ r.delivered
    nextTxID := r.nextTxID }

/-- One event of the accumulator's select loop. `txOk` is the outcome of the
store transaction of the flush the event may trigger. Shutdown (`ctx.Done`)
is the end of the event trace: the loop returns at once, flushing nothing. -/
inductive Event where
  | arrive (o : Op) (txOk : Bool)
  | timer (txOk : Bool)
deriving DecidableEq

/-- One iteration of the `select` in `startBgWorker`: an arriving operation
is appended to the buffer and triggers a flush once the buffer reaches
`buffSize`; a timer tick triggers a flush of whatever is buffered. -/
def stepLoop (s : LoopState) (e : Event) : LoopState :=
  match e with
  | Event.arrive o txOk =>
    let s1 := { s with buff := s.buff ++ [(s.nArrived, o)], nArrived := s.nArrived + 1 }
    if buffSize ≤ s1.buff.length then doFlush txOk s1 else s1
  | Event.timer txOk => doFlush txOk s

def runLoop (s : LoopState) (es : List Event) : LoopState :=
  es.foldl stepLoop s

def initLoop : LoopState :=
  { store := emptyStore, buff := [], delivered := [], nArrived := 0, nextTxID := 0 }

/-- A committed store transaction: either one stateless `addPoint` call or
one committed flush of the stateful accumulator. -/
inductive Tx where
  | stateless (txID : Nat) (userID : UserID) (amount : Int)
  | flushTx (buff : List (Nat × Op)) (nextTxID : Nat)
deriving DecidableEq

def applyTx (s : Store) (t : Tx) : Store :=
  match t with
  | Tx.stateless txID u a => (addPoint s txID u a).1
  | Tx.flushTx buff n => (flush true s buff n).store

/-- The store reached from the freshly truncated tables by a sequence of
committed transactions. -/
def applyTxs (txs : List Tx) : Store :=
  txs.foldl applyTx emptyStore

/-- The spec-side ledger sum: `Σ PointTx.amount where tx.user = u`. -/
def txSum (l : List TxLog) (u : UserID) : Int :=
  ((l.filter (fun t => t.userID == u)).map (fun t => t.amount)).sum

def ledgerSum (s : Store) (u : UserID) : Int := txSum s.ledger u

/-- Number of occurrences of an operation index in a list of indices. -/
def countId : List Nat → Nat → Nat
  | [], _ => 0
  | j :: rest, i => (if j = i then 1 else 0) + countId rest i

/-- Indices of the operations currently buffered. -/
def buffIds (s : LoopState) : List Nat := s.buff.map Prod.fst

/-- Indices of the operations that have received a callback so far. -/
def cbIds (s : LoopState) : List Nat := s.delivered.map Prod.fst

/-- Callback accounting of a loop state: every arrived operation is either
still buffered or has received exactly one callback, and never both;
un-arrived indices occur nowhere. -/
def accounted (s : LoopState) : Prop :=
  ∀ i, countId (buffIds s) i + countId (cbIds s) i = if i < s.nArrived then 1 else 0

/-- Ledger rows held by a flush in progress all have ids below the fresh-id
counter. -/
def idsBelow (acc : FlushAcc) : Prop :=
  ∀ t ∈ acc.txLogs, t.txID < acc.nextTxID

def stateNonneg (m : List (UserID × Int)) : Prop := ∀ u, 0 ≤ lookupBal m u

def balancesNonneg (s : Store) : Prop := ∀ u, 0 ≤ lookupBal s.balances u

def balancesBounded (s : Store) : Prop :=
  ∀ u, 0 ≤ lookupBal s.balances u ∧ lookupBal s.balances u < 2 ^ 63

/-- Append-only ledger consistency: each user's ledger sum equals the user's
stored balance. -/
def ledgerMatches (s : Store) : Prop := ∀ u, ledgerSum s u = lookupBal s.balances u

/-- Invariant of the in-memory state during a flush over the users `keys`,
relative to the store `S` the flush started from. -/
def FInv (S : Store) (keys : List UserID) (acc : FlushAcc) : Prop :=
  (∀ u, 0 ≤ lookupBal acc.state u ∧ lookupBal acc.state u < 2 ^ 63) ∧
  (∀ u, u ∈ keys → lookupBal acc.state u = lookupBal S.balances u + txSum acc.txLogs u) ∧
  (∀ u, u ∉ acc.dirty → txSum acc.txLogs u = 0) ∧
  (∀ u, u ∈ acc.dirty → u ∈ keys)

/-- A value representable as a Go `int64`. -/
def int64Ok (x : Int) : Bool := decide (-(2 ^ 63) ≤ x) && decide (x < 2 ^ 63)

/-- All amounts carried by a transaction are `int64` values (true of every
amount the Go program can construct). -/
def txAmountsOk : Tx → Bool
  | Tx.stateless _ _ a => int64Ok a
  | Tx.flushTx buff _ => buff.all (fun p => int64Ok p.2.amount)

/-- Keyed lookup in the feature snapshot with the Go-map default: a missing
key reads as `false`. -/
def lookupBool (m : List (String × Bool)) (k : String) : Bool :=
  match m.find? (fun q => q.1 == k) with
  | some q => q.2
  | none => false

/-- Go map assignment `m[name] = active` while building the snapshot. -/
def setB : List (String × Bool) → String → Bool → List (String × Bool)
  | [], k, v => [(k, v)]
  | (k0, v0) :: rest, k, v =>
    if k0 = k then (k, v) :: rest else (k0, v0) :: setB rest k v

/-- The `pgctx.Iter` scan inside `updateFeatureActiveCache`: rows are
consumed in order into a fresh map; `none` in the row stream stands for a
scan or query error at that point, which aborts the scan with an error. -/
def iterFeatures : List (Option (String × Bool)) → List (String × Bool) →
    Except Unit (List (String × Bool))
  | [], m => Except.ok m
  | none :: _, _ => Except.error ()
  | some r :: rest, m => iterFeatures rest (setB m r.1 r.2)

/-- `updateFeatureActiveCache`: build a fresh map from a full scan of
`features`; only when the scan finished without error is the process-wide
snapshot (`featureActiveCache.m`) replaced. Returns the snapshot visible to
readers afterwards and whether an error was reported. -/
def updateFeatureActiveCache (rows : List (Option (String × Bool)))
    (cache : List (String × Bool)) : List (String × Bool) × Bool :=
  match iterFeatures rows [] with
  | Except.error _ => (cache, true)
  | Except.ok m => (m, false)

/-- Error surface of the Core B read paths: `featureInactive` is the named
sentinel error; `store` is any store/query error (which the snapshot-cache
reader can never produce). -/
inductive AppErr where
  | featureInactive
  | store (code : Nat)
deriving DecidableEq

/-- `ensureFeatureActiveWithCache`: read the current snapshot under the
shared lock and test the key, with a missing key reading as `false`. No
store access happens. -/
def ensureFeatureActiveWithCache (cache : List (String × Bool)) (feature : String) :
    Option AppErr :=
  let active := lookupBool cache feature
  if !active then some AppErr.featureInactive else none

inductive HTTPResp where
  | okBody
  | inactiveBody
  | serverError
deriving DecidableEq

/-- The `/f3` handler in `main`: `featureInactive` renders the inactive
body, any other non-nil error renders a 500, nil renders `ok`. -/
def handleF3 (cache : List (String × Bool)) : HTTPResp :=
  match ensureFeatureActiveWithCache cache "f" with
  | some AppErr.featureInactive => HTTPResp.inactiveBody
  | some (AppErr.store _) => HTTPResp.serverError
  | none => HTTPResp.okBody

/-- Modelled from the spec: the request-coalescing reader
(`ensureFeatureActiveWithSingleFlight`) delegates to
`golang.org/x/sync/singleflight.Group.Do`, whose implementation is an
external dependency not present in this repository. Per §4.7 of the spec,
the group keeps at most one in-flight call per key; here the state for one
key is the list of waiters of the in-flight call (`none` when idle),
the number of underlying store queries started so far, and the log of
results delivered to callers (a result is the value-error pair of the
leader's query). -/
structure SFState where
  inFlight : Option (List Nat)
  queries : Nat
  delivered : List (Nat × (Bool × Option Unit))
deriving DecidableEq

inductive SFEvent where
  | call (caller : Nat)
  | complete (res : Bool × Option Unit)
deriving DecidableEq

/-- Modelled from the spec: one transition of the coalescing reader. A call
on an idle key installs a new in-flight handle and starts one underlying
query; a call while a query is in flight attaches as a waiter and starts
nothing; completion of the query delivers the leader's result to every
waiter and removes the handle. -/
def sfStep (s : SFState) (e : SFEvent) : SFState :=
  match e with
  | SFEvent.call c =>
    match s.inFlight with
    | none => { s with inFlight := some [c], queries := s.queries + 1 }
    | some ws => { s with inFlight := some (ws ++ [c]) }
  | SFEvent.complete r =>
    match s.inFlight with
    | none => s
    | some ws =>
      { inFlight := none, queries := s.queries,
        delivered := s.delivered ++ ws.map (fun c => (c, r)) }

def sfRun (s : SFState) (es : List SFEvent) : SFState :=
  es.foldl sfStep s

/-- Concrete inputs used by the witness theorems. -/
def wOp1 : Op := { userID := "u", amount := 5 }

def wOp2 : Op := { userID := "u", amount := -5 }

def wOp3 : Op := { userID := "v", amount := 3 }

def wAcc : FlushAcc :=
  { state := [("u", 5)], dirty := ["u"], txLogs := [{ txID := 0, userID := "u", amount := 5 }],
    callbacks := [(0, none)], nextTxID := 1 }

def wAcc7 : FlushAcc :=
  { state := [("u", 5)], dirty := [], txLogs := [], callbacks := [], nextTxID := 0 }

def wStore6 : Store := { balances := [("v", 3)], ledger := [] }

def wSFInit : SFState := { inFlight := none, queries := 0, delivered := [] }

/-! ## Theorems -/

/-- `wrap64` written with numerals, so that `omega` can reason about it. -/
theorem wrap64_def (x : Int) :
    wrap64 x = (x + 9223372036854775808) % 18446744073709551616 - 9223372036854775808 := by
  norm_num [wrap64]

theorem wrap64_range (x : Int) : -(2 ^ 63) ≤ wrap64 x ∧ wrap64 x < 2 ^ 63 := by
  rw [wrap64_def]
  norm_num
  omega

theorem wrap64_eq_self (x : Int) (h1 : -(2 ^ 63) ≤ x) (h2 : x < 2 ^ 63) : wrap64 x = x := by
  rw [wrap64_def]
  norm_num at h1 h2 ⊢
  omega

/-- A nonnegative wrapped sum of an in-range balance and an in-range amount
did not actually wrap: it equals the mathematical sum. -/
theorem wrap64_nonneg_add (b a : Int) (hb0 : 0 ≤ b) (hb1 : b < 2 ^ 63)
    (ha0 : -(2 ^ 63) ≤ a) (ha1 : a < 2 ^ 63) (h : 0 ≤ wrap64 (b + a)) :
    wrap64 (b + a) = b + a := by
  rw [wrap64_def] at h ⊢
  norm_num at hb1 ha0 ha1 h ⊢
  omega

theorem lookupBal_nil (u : UserID) : lookupBal [] u = 0 := rfl

theorem lookupBal_cons (k : UserID) (v : Int) (rest : List (UserID × Int)) (u : UserID) :
    lookupBal ((k, v) :: rest) u = if k = u then v else lookupBal rest u := by
  by_cases h : k = u <;> simp [lookupBal, List.find?_cons, h]

theorem lookupBal_setBal (m : List (UserID × Int)) (u v : UserID) (b : Int) :
    lookupBal (setBal m u b) v = if u = v then b else lookupBal m v := by
  induction m with
  | nil =>
    by_cases h : u = v <;> simp [setBal, lookupBal_cons, lookupBal_nil, h]
  | cons p rest ih =>
    obtain ⟨k, w⟩ := p
    by_cases hk : k = u
    · subst hk
      by_cases hv : k = v <;> simp [setBal, lookupBal_cons, hv]
    · by_cases hv : k = v
      · subst hv
        have : ¬ u = k := fun h => hk h.symm
        simp [setBal, hk, lookupBal_cons, this]
      · simp [setBal, hk, lookupBal_cons, hv, ih]

theorem txSum_nil (u : UserID) : txSum [] u = 0 := rfl

theorem txSum_append (l₁ l₂ : List TxLog) (u : UserID) :
    txSum (l₁ ++ l₂) u = txSum l₁ u + txSum l₂ u := by
  simp [txSum, List.filter_append]

theorem txSum_single (t : TxLog) (u : UserID) :
    txSum [t] u = if t.userID = u then t.amount else 0 := by
  by_cases h : t.userID = u <;> simp [txSum, List.filter_cons, h]

theorem lookupBal_restoreState (rows : List (UserID × Int)) (keys : List UserID) (u : UserID) :
    lookupBal (restoreState rows keys) u = if u ∈ keys then lookupBal rows u else 0 := by
  induction rows with
  | nil =>
    by_cases h : u ∈ keys <;> simp [restoreState, lookupBal_nil, h]
  | cons p rest ih =>
    obtain ⟨k, v⟩ := p
    by_cases hp : k ∈ keys
    · have : restoreState ((k, v) :: rest) keys = (k, v) :: restoreState rest keys := by
        simp [restoreState, List.filter_cons, hp]
      rw [this, lookupBal_cons]
      by_cases hk : k = u
      · subst hk
        simp [hp, lookupBal_cons]
      · rw [if_neg hk, ih, lookupBal_cons, if_neg hk]
    · have : restoreState ((k, v) :: rest) keys = restoreState rest keys := by
        simp [restoreState, List.filter_cons, hp]
      rw [this, ih]
      by_cases hu : u ∈ keys
      · have hk : ¬ k = u := fun h => hp (h ▸ hu)
        rw [if_pos hu, if_pos hu, lookupBal_cons, if_neg hk]
      · rw [if_neg hu, if_neg hu]

theorem mem_markDirty (d : List UserID) (u v : UserID) :
    v ∈ markDirty d u ↔ v ∈ d ∨ v = u := by
  unfold markDirty
  by_cases h : u ∈ d
  · rw [if_pos h]
    constructor
    · exact Or.inl
    · rintro (hv | rfl)
      · exact hv
      · exact h
  · rw [if_neg h]
    simp

theorem lookupBal_writeBack (d : List UserID) (st : List (UserID × Int))
    (rows : List (UserID × Int)) (v : UserID) :
    lookupBal (d.foldl (fun r u => setBal r u (lookupBal st u)) rows) v
      = if v ∈ d then lookupBal st v else lookupBal rows v := by
  induction d generalizing rows with
  | nil => simp
  | cons u rest ih =>
    rw [List.foldl_cons, ih]
    by_cases hv : v ∈ rest
    · simp [hv]
    · by_cases hvu : v = u
      · subst hvu
        simp [hv, lookupBal_setBal]
      · have : ¬ u = v := fun h => hvu h.symm
        simp [hv, hvu, lookupBal_setBal, this]

theorem countId_nil (i : Nat) : countId [] i = 0 := rfl

theorem countId_append (l₁ l₂ : List Nat) (i : Nat) :
    countId (l₁ ++ l₂) i = countId l₁ i + countId l₂ i := by
  induction l₁ with
  | nil => simp [countId]
  | cons j rest ih =>
    have hc : countId ((j :: rest) ++ l₂) i = (if j = i then 1 else 0) + countId (rest ++ l₂) i :=
      rfl
    rw [hc, ih, countId]
    omega

/-- Every buffered operation contributes exactly one callback, tagged with
its own index, in buffer order. -/
theorem applyOps_callback_ids (acc : FlushAcc) (buff : List (Nat × Op)) :
    (applyOps acc buff).callbacks.map Prod.fst
      = acc.callbacks.map Prod.fst ++ buff.map Prod.fst := by
  induction buff generalizing acc with
  | nil => simp [applyOps]
  | cons p rest ih =>
    have hstep : applyOps acc (p :: rest) = applyOps (applyOp acc p) rest := rfl
    rw [hstep, ih]
    by_cases h : wrap64 (lookupBal acc.state p.2.userID + p.2.amount) < 0 <;>
      simp [applyOp, h]

theorem idsBelow_applyOp (acc : FlushAcc) (p : Nat × Op) (h : idsBelow acc) :
    idsBelow (applyOp acc p) := by
  by_cases hb : wrap64 (lookupBal acc.state p.2.userID + p.2.amount) < 0
  · simpa [applyOp, hb, idsBelow] using h
  · intro t ht
    have hnext : (applyOp acc p).nextTxID = acc.nextTxID + 1 := by simp [applyOp, hb]
    have htx : (applyOp acc p).txLogs
        = acc.txLogs ++ [{ txID := acc.nextTxID, userID := p.2.userID, amount := p.2.amount }] := by
      simp [applyOp, hb]
    rw [htx] at ht
    rw [hnext]
    simp only [List.mem_append, List.mem_singleton] at ht
    rcases ht with ht | rfl
    · exact Nat.lt_succ_of_lt (h t ht)
    · exact Nat.lt_succ_self _

theorem idsBelow_applyOps (acc : FlushAcc) (buff : List (Nat × Op)) (h : idsBelow acc) :
    idsBelow (applyOps acc buff) := by
  induction buff generalizing acc with
  | nil => exact h
  | cons p rest ih => exact ih _ (idsBelow_applyOp acc p h)

theorem idsBelow_midFlush (store : Store) (n : Nat) (buff done : List (Nat × Op)) :
    idsBelow (midFlush store n buff done) := by
  apply idsBelow_applyOps
  intro t ht
  simp [initFlushAcc] at ht

/-- A flush never changes the arrival counter and never changes the total
occurrence count of an operation index across buffer and delivered
callbacks: on failure both are untouched, on success the buffered ops move
wholesale into the delivered list. -/
theorem doFlush_counts (txOk : Bool) (s : LoopState) :
    (doFlush txOk s).nArrived = s.nArrived ∧
    ∀ i, countId (buffIds (doFlush txOk s)) i + countId (cbIds (doFlush txOk s)) i
          = countId (buffIds s) i + countId (cbIds s) i := by
  cases hb : s.buff with
  | nil =>
    constructor
    · simp [doFlush, flush, hb]
    · intro i
      simp [doFlush, flush, hb, buffIds, cbIds]
  | cons q rest =>
    cases txOk with
    | false =>
      constructor
      · simp [doFlush, flush, hb]
      · intro i
        simp [doFlush, flush, hb, buffIds, cbIds]
    | true =>
      have hids : (applyOps (initFlushAcc s.store (q :: rest) s.nextTxID) (q :: rest)).callbacks.map
          Prod.fst = (q :: rest).map Prod.fst := by
        rw [applyOps_callback_ids]
        simp [initFlushAcc]
      constructor
      · simp [doFlush, flush, hb]
      · intro i
        have hbuff : buffIds (doFlush true s) = [] := by
          simp [doFlush, flush, hb, buffIds]
        have hcb : cbIds (doFlush true s) = cbIds s ++ (q :: rest).map Prod.fst := by
          simp [doFlush, flush, hb, cbIds, hids]
        rw [hbuff, hcb, countId_append, countId_nil]
        have : countId (buffIds s) i = countId ((q :: rest).map Prod.fst) i := by
          rw [buffIds, hb]
        omega

theorem accounted_doFlush (txOk : Bool) (s : LoopState) (h : accounted s) :
    accounted (doFlush txOk s) := by
  intro i
  obtain ⟨hn, hc⟩ := doFlush_counts txOk s
  rw [hn, hc]
  exact h i

theorem accounted_step (s : LoopState) (e : Event) (h : accounted s) :
    accounted (stepLoop s e) := by
  cases e with
  | timer txOk => exact accounted_doFlush txOk s h
  | arrive o txOk =>
    have h1 : accounted { s with buff := s.buff ++ [(s.nArrived, o)], nArrived := s.nArrived + 1 } := by
      intro i
      have hbuf : buffIds { s with buff := s.buff ++ [(s.nArrived, o)], nArrived := s.nArrived + 1 }
          = buffIds s ++ [s.nArrived] := by
        simp [buffIds]
      have hcb : cbIds { s with buff := s.buff ++ [(s.nArrived, o)], nArrived := s.nArrived + 1 }
          = cbIds s := rfl
      rw [hbuf, hcb, countId_append]
      show countId (buffIds s) i + countId [s.nArrived] i + countId (cbIds s) i
          = if i < s.nArrived + 1 then 1 else 0
      have h0 := h i
      have hsingle : countId [s.nArrived] i = if s.nArrived = i then 1 else 0 := by
        simp [countId]
      rw [hsingle]
      by_cases hi : s.nArrived = i
      · rw [if_pos hi, if_pos (by omega : i < s.nArrived + 1)]
        rw [if_neg (by omega : ¬ i < s.nArrived)] at h0
        omega
      · rw [if_neg hi]
        by_cases hlt : i < s.nArrived
        · rw [if_pos hlt] at h0
          rw [if_pos (by omega : i < s.nArrived + 1)]
          omega
        · rw [if_neg hlt] at h0
          rw [if_neg (by omega : ¬ i < s.nArrived + 1)]
          omega
    show accounted (if buffSize ≤ (s.buff ++ [(s.nArrived, o)]).length then _ else _)
    by_cases hlen : buffSize ≤ (s.buff ++ [(s.nArrived, o)]).length
    · rw [if_pos hlen]
      exact accounted_doFlush txOk _ h1
    · rw [if_neg hlen]
      exact h1

theorem accounted_runLoop (es : List Event) (s : LoopState) (h : accounted s) :
    accounted (runLoop s es) := by
  induction es generalizing s with
  | nil => exact h
  | cons e rest ih => exact ih _ (accounted_step s e h)

theorem accounted_initLoop : accounted initLoop := by
  intro i
  simp [initLoop, buffIds, cbIds, countId]

theorem stateNonneg_applyOp (acc : FlushAcc) (p : Nat × Op) (h : stateNonneg acc.state) :
    stateNonneg (applyOp acc p).state := by
  by_cases hb : wrap64 (lookupBal acc.state p.2.userID + p.2.amount) < 0
  · simpa [applyOp, hb] using h
  · intro u
    have hst : (applyOp acc p).state
        = setBal acc.state p.2.userID (wrap64 (lookupBal acc.state p.2.userID + p.2.amount)) := by
      simp [applyOp, hb]
    rw [hst, lookupBal_setBal]
    by_cases hu : p.2.userID = u
    · rw [if_pos hu]
      omega
    · rw [if_neg hu]
      exact h u

theorem stateNonneg_applyOps (acc : FlushAcc) (buff : List (Nat × Op)) (h : stateNonneg acc.state) :
    stateNonneg (applyOps acc buff).state := by
  induction buff generalizing acc with
  | nil => exact h
  | cons p rest ih => exact ih _ (stateNonneg_applyOp acc p h)

theorem stateNonneg_initFlushAcc (store : Store) (buff : List (Nat × Op)) (n : Nat)
    (h : balancesNonneg store) : stateNonneg (initFlushAcc store buff n).state := by
  intro u
  have : (initFlushAcc store buff n).state
      = restoreState store.balances (buff.map (fun p => p.2.userID)) := rfl
  rw [this, lookupBal_restoreState]
  by_cases hu : u ∈ buff.map (fun p => p.2.userID)
  · rw [if_pos hu]
    exact h u
  · rw [if_neg hu]

theorem flush_balancesNonneg (store : Store) (buff : List (Nat × Op)) (n : Nat)
    (h : balancesNonneg store) : balancesNonneg (flush true store buff n).store := by
  cases buff with
  | nil => exact h
  | cons q rest =>
    intro u
    have hred : (flush true store (q :: rest) n).store
        = commitFlush store (applyOps (initFlushAcc store (q :: rest) n) (q :: rest)) := by
      simp [flush]
    rw [hred]
    have hstate : stateNonneg (applyOps (initFlushAcc store (q :: rest) n) (q :: rest)).state :=
      stateNonneg_applyOps _ _ (stateNonneg_initFlushAcc store (q :: rest) n h)
    have hcb : (commitFlush store (applyOps (initFlushAcc store (q :: rest) n) (q :: rest))).balances
        = ((applyOps (initFlushAcc store (q :: rest) n) (q :: rest)).dirty).foldl
            (fun rows v => setBal rows v
              (lookupBal (applyOps (initFlushAcc store (q :: rest) n) (q :: rest)).state v))
            store.balances := rfl
    rw [hcb, lookupBal_writeBack]
    by_cases hd : u ∈ (applyOps (initFlushAcc store (q :: rest) n) (q :: rest)).dirty
    · rw [if_pos hd]
      exact hstate u
    · rw [if_neg hd]
      exact h u

theorem addPoint_balancesNonneg (store : Store) (txID : Nat) (u : UserID) (a : Int)
    (h : balancesNonneg store) : balancesNonneg (addPoint store txID u a).1 := by
  by_cases hb : wrap64 (lookupBal store.balances u + a) < 0
  · simpa [addPoint, hb] using h
  · intro v
    have hbal : (addPoint store txID u a).1.balances
        = setBal store.balances u (wrap64 (lookupBal store.balances u + a)) := by
      simp [addPoint, hb]
    rw [hbal, lookupBal_setBal]
    by_cases hv : u = v
    · rw [if_pos hv]
      omega
    · rw [if_neg hv]
      exact h v

theorem balancesNonneg_foldTxs (txs : List Tx) (S : Store) (h : balancesNonneg S) :
    balancesNonneg (txs.foldl applyTx S) := by
  induction txs generalizing S with
  | nil => exact h
  | cons t rest ih =>
    refine ih (applyTx S t) ?_
    cases t with
    | stateless txID u a => exact addPoint_balancesNonneg S txID u a h
    | flushTx buff n => exact flush_balancesNonneg S buff n h

theorem balancesNonneg_emptyStore : balancesNonneg emptyStore := by
  intro u
  simp [emptyStore, lookupBal_nil]

theorem applyOp_reject (acc : FlushAcc) (i : Nat) (o : Op)
    (hneg : wrap64 (lookupBal acc.state o.userID + o.amount) < 0) :
    applyOp acc (i, o)
      = { acc with callbacks := acc.callbacks ++ [(i, some Err.insufficientBalance)] } := by
  simp [applyOp, hneg]

theorem applyOp_accept_state (acc : FlushAcc) (i : Nat) (o : Op)
    (hneg : ¬ wrap64 (lookupBal acc.state o.userID + o.amount) < 0) :
    (applyOp acc (i, o)).state
      = setBal acc.state o.userID (wrap64 (lookupBal acc.state o.userID + o.amount)) := by
  simp [applyOp, hneg]

theorem applyOp_accept_dirty (acc : FlushAcc) (i : Nat) (o : Op)
    (hneg : ¬ wrap64 (lookupBal acc.state o.userID + o.amount) < 0) :
    (applyOp acc (i, o)).dirty = markDirty acc.dirty o.userID := by
  simp [applyOp, hneg]

theorem applyOp_accept_txLogs (acc : FlushAcc) (i : Nat) (o : Op)
    (hneg : ¬ wrap64 (lookupBal acc.state o.userID + o.amount) < 0) :
    (applyOp acc (i, o)).txLogs
      = acc.txLogs ++ [{ txID := acc.nextTxID, userID := o.userID, amount := o.amount }] := by
  simp [applyOp, hneg]

theorem applyOp_accept_callbacks (acc : FlushAcc) (i : Nat) (o : Op)
    (hneg : ¬ wrap64 (lookupBal acc.state o.userID + o.amount) < 0) :
    (applyOp acc (i, o)).callbacks = acc.callbacks ++ [(i, none)] := by
  simp [applyOp, hneg]

theorem txSum_append_single (l : List TxLog) (id2 : Nat) (u0 u : UserID) (a : Int) :
    txSum (l ++ [{ txID := id2, userID := u0, amount := a }]) u
      = txSum l u + if u0 = u then a else 0 := by
  rw [txSum_append, txSum_single]

theorem FInv_applyOp (S : Store) (keys : List UserID) (acc : FlushAcc) (i : Nat) (o : Op)
    (hinv : FInv S keys acc) (hk : o.userID ∈ keys)
    (ha0 : -(2 ^ 63) ≤ o.amount) (ha1 : o.amount < 2 ^ 63) :
    FInv S keys (applyOp acc (i, o)) := by
  obtain ⟨h1, h2, h3, h4⟩ := hinv
  by_cases hneg : wrap64 (lookupBal acc.state o.userID + o.amount) < 0
  · rw [applyOp_reject acc i o hneg]
    exact ⟨h1, h2, h3, h4⟩
  · have hnn : 0 ≤ wrap64 (lookupBal acc.state o.userID + o.amount) := by omega
    have hbnd := h1 o.userID
    have heq : wrap64 (lookupBal acc.state o.userID + o.amount)
        = lookupBal acc.state o.userID + o.amount :=
      wrap64_nonneg_add _ _ hbnd.1 hbnd.2 ha0 ha1 hnn
    refine ⟨?_, ?_, ?_, ?_⟩
    · intro v
      rw [applyOp_accept_state acc i o hneg, lookupBal_setBal]
      by_cases hv : o.userID = v
      · rw [if_pos hv]
        exact ⟨hnn, (wrap64_range _).2⟩
      · rw [if_neg hv]
        exact h1 v
    · intro v hvk
      rw [applyOp_accept_state acc i o hneg, applyOp_accept_txLogs acc i o hneg,
        lookupBal_setBal, txSum_append_single]
      have h2v := h2 v hvk
      by_cases hv : o.userID = v
      · rw [if_pos hv, if_pos hv, heq, hv]
        omega
      · rw [if_neg hv, if_neg hv]
        omega
    · intro v hv
      rw [applyOp_accept_dirty acc i o hneg, mem_markDirty] at hv
      push_neg at hv
      obtain ⟨hvd, hvu⟩ := hv
      rw [applyOp_accept_txLogs acc i o hneg, txSum_append_single,
        if_neg (fun h => hvu h.symm), h3 v hvd]
      omega
    · intro v hv
      rw [applyOp_accept_dirty acc i o hneg, mem_markDirty] at hv
      rcases hv with hv | rfl
      · exact h4 v hv
      · exact hk

theorem FInv_applyOps (S : Store) (keys : List UserID) (acc : FlushAcc)
    (buff : List (Nat × Op)) (hinv : FInv S keys acc)
    (hbuff : ∀ p ∈ buff, p.2.userID ∈ keys ∧ -(2 ^ 63) ≤ p.2.amount ∧ p.2.amount < 2 ^ 63) :
    FInv S keys (applyOps acc buff) := by
  induction buff generalizing acc with
  | nil => exact hinv
  | cons p rest ih =>
    have hp := hbuff p (List.mem_cons_self _ _)
    exact ih (applyOp acc p)
      (FInv_applyOp S keys acc p.1 p.2 hinv hp.1 hp.2.1 hp.2.2)
      (fun q hq => hbuff q (List.mem_cons_of_mem _ hq))

theorem FInv_initFlushAcc (S : Store) (buff : List (Nat × Op)) (n : Nat)
    (hS : balancesBounded S) :
    FInv S (buff.map (fun p => p.2.userID)) (initFlushAcc S buff n) := by
  have hst : (initFlushAcc S buff n).state
      = restoreState S.balances (buff.map (fun p => p.2.userID)) := rfl
  have htx : (initFlushAcc S buff n).txLogs = [] := rfl
  refine ⟨?_, ?_, ?_, ?_⟩
  · intro v
    rw [hst, lookupBal_restoreState]
    by_cases hv : v ∈ buff.map (fun p => p.2.userID)
    · rw [if_pos hv]
      exact hS v
    · rw [if_neg hv]
      norm_num
  · intro v hv
    rw [hst, htx, lookupBal_restoreState, if_pos hv, txSum_nil]
    omega
  · intro v hv
    rw [htx, txSum_nil]
  · intro v hv
    simp [initFlushAcc] at hv

theorem flush_keeps_invariants (store : Store) (buff : List (Nat × Op)) (n : Nat)
    (hb : balancesBounded store) (hl : ledgerMatches store)
    (ha : ∀ p ∈ buff, -(2 ^ 63) ≤ p.2.amount ∧ p.2.amount < 2 ^ 63) :
    balancesBounded (flush true store buff n).store ∧
      ledgerMatches (flush true store buff n).store := by
  cases buff with
  | nil => exact ⟨hb, hl⟩
  | cons q rest =>
    have hred : (flush true store (q :: rest) n).store
        = commitFlush store (applyOps (initFlushAcc store (q :: rest) n) (q :: rest)) := by
      simp [flush]
    have hFI : FInv store ((q :: rest).map (fun p => p.2.userID))
        (applyOps (initFlushAcc store (q :: rest) n) (q :: rest)) := by
      refine FInv_applyOps store _ _ _ (FInv_initFlushAcc store (q :: rest) n hb) ?_
      intro p hp
      exact ⟨List.mem_map_of_mem _ hp, (ha p hp).1, (ha p hp).2⟩
    obtain ⟨h1, h2, h3, h4⟩ := hFI
    rw [hred]
    set acc := applyOps (initFlushAcc store (q :: rest) n) (q :: rest) with hacc
    have hbal : ∀ v, lookupBal (commitFlush store acc).balances v
        = if v ∈ acc.dirty then lookupBal acc.state v else lookupBal store.balances v :=
      fun v => lookupBal_writeBack acc.dirty acc.state store.balances v
    have hled : ∀ v, ledgerSum (commitFlush store acc) v
        = ledgerSum store v + txSum acc.txLogs v := by
      intro v
      show txSum (store.ledger ++ acc.txLogs) v = _
      rw [txSum_append]
      rfl
    constructor
    · intro v
      rw [hbal v]
      by_cases hv : v ∈ acc.dirty
      · rw [if_pos hv]
        exact h1 v
      · rw [if_neg hv]
        exact hb v
    · intro v
      rw [hled v, hbal v]
      by_cases hv : v ∈ acc.dirty
      · rw [if_pos hv]
        have h2v := h2 v (h4 v hv)
        have hlv := hl v
        omega
      · rw [if_neg hv]
        have h3v := h3 v hv
        have hlv := hl v
        omega

theorem addPoint_keeps_invariants (store : Store) (txID : Nat) (u : UserID) (a : Int)
    (hb : balancesBounded store) (hl : ledgerMatches store)
    (ha0 : -(2 ^ 63) ≤ a) (ha1 : a < 2 ^ 63) :
    balancesBounded (addPoint store txID u a).1 ∧ ledgerMatches (addPoint store txID u a).1 := by
  by_cases hneg : wrap64 (lookupBal store.balances u + a) < 0
  · have h : (addPoint store txID u a).1 = store := by simp [addPoint, hneg]
    rw [h]
    exact ⟨hb, hl⟩
  · have hbal : (addPoint store txID u a).1.balances
        = setBal store.balances u (wrap64 (lookupBal store.balances u + a)) := by
      simp [addPoint, hneg]
    have hledr : (addPoint store txID u a).1.ledger
        = store.ledger ++ [{ txID := txID, userID := u, amount := a }] := by
      simp [addPoint, hneg]
    have hnn : 0 ≤ wrap64 (lookupBal store.balances u + a) := by omega
    have heq := wrap64_nonneg_add _ _ (hb u).1 (hb u).2 ha0 ha1 hnn
    constructor
    · intro v
      rw [hbal, lookupBal_setBal]
      by_cases hv : u = v
      · rw [if_pos hv]
        exact ⟨hnn, (wrap64_range _).2⟩
      · rw [if_neg hv]
        exact hb v
    · intro v
      have hls : ledgerSum (addPoint store txID u a).1 v
          = ledgerSum store v + if u = v then a else 0 := by
        show txSum (addPoint store txID u a).1.ledger v = _
        rw [hledr, txSum_append_single]
        rfl
      rw [hls, hbal, lookupBal_setBal]
      have hlv := hl v
      by_cases hv : u = v
      · rw [if_pos hv, if_pos hv, heq, hv]
        omega
      · rw [if_neg hv, if_neg hv]
        omega

theorem invariants_foldTxs (txs : List Tx) (S : Store)
    (hb : balancesBounded S) (hl : ledgerMatches S) (h : txs.all txAmountsOk = true) :
    balancesBounded (txs.foldl applyTx S) ∧ ledgerMatches (txs.foldl applyTx S) := by
  induction txs generalizing S with
  | nil => exact ⟨hb, hl⟩
  | cons t rest ih =>
    rw [List.all_cons, Bool.and_eq_true] at h
    obtain ⟨ht, hrest⟩ := h
    have hstep : balancesBounded (applyTx S t) ∧ ledgerMatches (applyTx S t) := by
      cases t with
      | stateless txID u a =>
        have hok : int64Ok a = true := ht
        simp only [int64Ok, Bool.and_eq_true, decide_eq_true_eq] at hok
        exact addPoint_keeps_invariants S txID u a hb hl hok.1 hok.2
      | flushTx buff n =>
        have hok : buff.all (fun p => int64Ok p.2.amount) = true := ht
        rw [List.all_eq_true] at hok
        refine flush_keeps_invariants S buff n hb hl ?_
        intro p hp
        have hone := hok p hp
        simp only [int64Ok, Bool.and_eq_true, decide_eq_true_eq] at hone
        exact hone
    exact ih (applyTx S t) hstep.1 hstep.2 hrest

theorem balancesBounded_emptyStore : balancesBounded emptyStore := by
  intro u
  have : lookupBal emptyStore.balances u = 0 := rfl
  rw [this]
  norm_num

theorem ledgerMatches_emptyStore : ledgerMatches emptyStore := fun _ => rfl

theorem lookupBal_find?_none (m : List (UserID × Int)) (u : UserID)
    (h : m.find? (fun q => q.1 == u) = none) : lookupBal m u = 0 := by
  unfold lookupBal
  rw [h]

theorem iterFeatures_error (rows : List (Option (String × Bool))) (h : none ∈ rows) :
    ∀ m, iterFeatures rows m = Except.error () := by
  induction rows with
  | nil => cases h
  | cons r rest ih =>
    intro m
    cases r with
    | none => rfl
    | some q =>
      have hr : none ∈ rest := by
        rcases List.mem_cons.mp h with h1 | h1
        · simp at h1
        · exact h1
      exact ih hr (setB m q.1 q.2)

theorem sfRun_joins_waiters (cs : List Nat) (ws : List Nat) (q : Nat)
    (d : List (Nat × (Bool × Option Unit))) :
    sfRun { inFlight := some ws, queries := q, delivered := d } (cs.map SFEvent.call)
      = { inFlight := some (ws ++ cs), queries := q, delivered := d } := by
  induction cs generalizing ws with
  | nil => simp [sfRun]
  | cons c rest ih =>
    have hstep : sfRun { inFlight := some ws, queries := q, delivered := d }
        ((c :: rest).map SFEvent.call)
        = sfRun { inFlight := some (ws ++ [c]), queries := q, delivered := d }
            (rest.map SFEvent.call) := rfl
    rw [hstep, ih]
    simp

/-! ## Claim theorems -/

/-- C1, counterexample: on a failed flush transaction the code delivers no
`StoreFailure` completion to the buffered operation and does not clear the
buffer — `flush` logs the error and returns with the buffer intact. -/
theorem flush_failure_drops_callbacks_cex :
    ¬ ((0, some Err.storeFailure) ∈ (flush false emptyStore [(0, wOp1)] 0).delivered ∧
      (flush false emptyStore [(0, wOp1)] 0).buff = []) := by
  decide

/-- C1 (amended): if the flush transaction fails (any read, bulk insert,
bulk upsert, or commit error), the transaction rolls back leaving the store
unchanged, no callback is delivered to any operation of the batch, and the
buffer is left in place, so the whole batch is retried at the next flush
trigger; producers stay blocked until a flush of their batch commits. -/
theorem flush_failure_retains_buffer (store : Store) (buff : List (Nat × Op)) (n : Nat) :
    flush false store buff n
      = { store := store, buff := buff, delivered := [], nextTxID := n } := by
  cases buff with
  | nil => rfl
  | cons q rest => simp [flush]

theorem flush_failure_retains_buffer_witness :
    flush false emptyStore [(1, wOp1)] 5
      = { store := emptyStore, buff := [(1, wOp1)], delivered := [], nextTxID := 5 } :=
  flush_failure_retains_buffer emptyStore [(1, wOp1)] 5

/-- C2, counterexample: a run in which one operation is submitted and the
loop then shuts down: the operation never receives any callback, so
"exactly one callback per submitted operation" fails (zero are sent). -/
theorem shutdown_zero_callbacks_cex :
    (runLoop initLoop [Event.arrive wOp1 true]).nArrived = 1 ∧
    (runLoop initLoop [Event.arrive wOp1 true]).delivered = [] := by
  decide

/-- C2 (amended): over any run of the accumulator loop, every submitted
operation receives at most one callback on its completion handle, and it
receives exactly one iff it has arrived and is no longer buffered, i.e. iff
a flush containing it committed during the run; operations still buffered
when the loop exits (shutdown, or flush failures to the end of the run)
receive zero callbacks. -/
theorem operation_at_most_one_callback (es : List Event) (i : Nat) :
    countId (cbIds (runLoop initLoop es)) i ≤ 1 ∧
    (countId (cbIds (runLoop initLoop es)) i = 1 ↔
      i < (runLoop initLoop es).nArrived ∧ countId (buffIds (runLoop initLoop es)) i = 0) := by
  have h := accounted_runLoop es initLoop accounted_initLoop i
  by_cases hi : i < (runLoop initLoop es).nArrived
  · rw [if_pos hi] at h
    refine ⟨by omega, ?_, ?_⟩
    · intro h1
      exact ⟨hi, by omega⟩
    · intro h1
      omega
  · rw [if_neg hi] at h
    refine ⟨by omega, ?_, ?_⟩
    · intro h1
      omega
    · intro h1
      exact absurd h1.1 hi

theorem operation_at_most_one_callback_witness :
    countId (cbIds (runLoop initLoop [Event.arrive wOp1 true, Event.timer true])) 0 ≤ 1 ∧
    (countId (cbIds (runLoop initLoop [Event.arrive wOp1 true, Event.timer true])) 0 = 1 ↔
      0 < (runLoop initLoop [Event.arrive wOp1 true, Event.timer true]).nArrived ∧
      countId (buffIds (runLoop initLoop [Event.arrive wOp1 true, Event.timer true])) 0 = 0) :=
  operation_at_most_one_callback [Event.arrive wOp1 true, Event.timer true] 0

/-- C3: within a successful flush the buffer is processed in arrival order
(the whole flush equals processing the prefix, then the distinguished
operation against the prefix's in-memory state, then the rest). When the
computed balance is negative the operation gets an `InsufficientBalance`
callback and changes no state, dirty set, or ledger rows; otherwise the
user's in-memory balance becomes the computed value, the user is marked
dirty, exactly one ledger row `(freshID, user, amount)` is appended (its id
differs from every id already accumulated), and the operation gets an `Ok`
callback. -/
theorem flush_applies_in_arrival_order (store : Store) (n : Nat)
    (pre post : List (Nat × Op)) (i : Nat) (o : Op) (b : FlushAcc)
    (hb : b = midFlush store n (pre ++ (i, o) :: post) pre) :
    midFlush store n (pre ++ (i, o) :: post) (pre ++ (i, o) :: post)
      = applyOps (applyOp b (i, o)) post ∧
    (if wrap64 (lookupBal b.state o.userID + o.amount) < 0 then
      (applyOp b (i, o)).callbacks = b.callbacks ++ [(i, some Err.insufficientBalance)] ∧
      (applyOp b (i, o)).state = b.state ∧
      (applyOp b (i, o)).dirty = b.dirty ∧
      (applyOp b (i, o)).txLogs = b.txLogs
    else
      lookupBal (applyOp b (i, o)).state o.userID
        = wrap64 (lookupBal b.state o.userID + o.amount) ∧
      o.userID ∈ (applyOp b (i, o)).dirty ∧
      (applyOp b (i, o)).txLogs
        = b.txLogs ++ [{ txID := b.nextTxID, userID := o.userID, amount := o.amount }] ∧
      b.txLogs.all (fun t => t.txID != b.nextTxID) = true ∧
      (applyOp b (i, o)).callbacks = b.callbacks ++ [(i, none)]) := by
  subst hb
  constructor
  · simp only [midFlush, applyOps, List.foldl_append, List.foldl_cons]
  · by_cases h : wrap64
        (lookupBal (midFlush store n (pre ++ (i, o) :: post) pre).state o.userID + o.amount) < 0
    · rw [if_pos h, applyOp_reject _ i o h]
      exact ⟨rfl, rfl, rfl, rfl⟩
    · rw [if_neg h]
      refine ⟨?_, ?_, ?_, ?_, ?_⟩
      · rw [applyOp_accept_state _ i o h, lookupBal_setBal, if_pos rfl]
      · rw [applyOp_accept_dirty _ i o h, mem_markDirty]
        exact Or.inr rfl
      · exact applyOp_accept_txLogs _ i o h
      · rw [List.all_eq_true]
        intro t ht
        have hlt := idsBelow_midFlush store n (pre ++ (i, o) :: post) pre t ht
        simp only [bne_iff_ne, ne_eq]
        omega
      · exact applyOp_accept_callbacks _ i o h

theorem flush_applies_in_arrival_order_witness :
    wAcc = midFlush emptyStore 0 ([(0, wOp1)] ++ (1, wOp2) :: []) [(0, wOp1)] ∧
    (midFlush emptyStore 0 ([(0, wOp1)] ++ (1, wOp2) :: []) ([(0, wOp1)] ++ (1, wOp2) :: [])
      = applyOps (applyOp wAcc (1, wOp2)) [] ∧
    (if wrap64 (lookupBal wAcc.state wOp2.userID + wOp2.amount) < 0 then
      (applyOp wAcc (1, wOp2)).callbacks = wAcc.callbacks ++ [(1, some Err.insufficientBalance)] ∧
      (applyOp wAcc (1, wOp2)).state = wAcc.state ∧
      (applyOp wAcc (1, wOp2)).dirty = wAcc.dirty ∧
      (applyOp wAcc (1, wOp2)).txLogs = wAcc.txLogs
    else
      lookupBal (applyOp wAcc (1, wOp2)).state wOp2.userID
        = wrap64 (lookupBal wAcc.state wOp2.userID + wOp2.amount) ∧
      wOp2.userID ∈ (applyOp wAcc (1, wOp2)).dirty ∧
      (applyOp wAcc (1, wOp2)).txLogs
        = wAcc.txLogs ++ [{ txID := wAcc.nextTxID, userID := wOp2.userID, amount := wOp2.amount }] ∧
      wAcc.txLogs.all (fun t => t.txID != wAcc.nextTxID) = true ∧
      (applyOp wAcc (1, wOp2)).callbacks = wAcc.callbacks ++ [(1, none)])) :=
  ⟨by decide, flush_applies_in_arrival_order emptyStore 0 [(0, wOp1)] [] 1 wOp2 wAcc (by decide)⟩

/-- C4: in every state reachable from the truncated tables by committed
transactions — stateless `addPoint` transactions and committed stateful
flushes in any order — every user's stored balance is nonnegative. -/
theorem committed_balances_nonneg (txs : List Tx) (u : UserID) :
    0 ≤ lookupBal (applyTxs txs).balances u :=
  balancesNonneg_foldTxs txs emptyStore balancesNonneg_emptyStore u

theorem committed_balances_nonneg_witness :
    0 ≤ lookupBal (applyTxs [Tx.stateless 0 "u" 5, Tx.flushTx [(0, wOp2)] 1]).balances "u" :=
  committed_balances_nonneg [Tx.stateless 0 "u" 5, Tx.flushTx [(0, wOp2)] 1] "u"

/-- C5: in every state reachable from the truncated tables by committed
transactions whose amounts are `int64` values, each user's ledger sum
(`Σ PointTx.amount` over the user's rows) equals the user's stored
balance: every accepted operation appends exactly one ledger row carrying
the same amount by which the balance changes, atomically per transaction. -/
theorem ledger_sum_matches_balance (txs : List Tx) (u : UserID)
    (h : txs.all txAmountsOk = true) :
    ledgerSum (applyTxs txs) u = lookupBal (applyTxs txs).balances u :=
  (invariants_foldTxs txs emptyStore balancesBounded_emptyStore ledgerMatches_emptyStore h).2 u

theorem ledger_sum_matches_balance_witness :
    ([Tx.stateless 0 "u" 5, Tx.flushTx [(0, wOp2), (1, wOp3)] 1].all txAmountsOk = true) ∧
    ledgerSum (applyTxs [Tx.stateless 0 "u" 5, Tx.flushTx [(0, wOp2), (1, wOp3)] 1]) "u"
      = lookupBal (applyTxs [Tx.stateless 0 "u" 5, Tx.flushTx [(0, wOp2), (1, wOp3)] 1]).balances "u" :=
  ⟨by decide, ledger_sum_matches_balance [Tx.stateless 0 "u" 5, Tx.flushTx [(0, wOp2), (1, wOp3)] 1]
    "u" (by decide)⟩

/-- C6: when a flush restores balances for the users in the buffer, a user
with no stored row reads as balance 0 in the restored in-memory state, so
the first operation for a new user is computed against 0. -/
theorem missing_user_reads_zero (store : Store) (buff : List (Nat × Op)) (n : Nat)
    (u : UserID) (a : Int)
    (h : store.balances.find? (fun q => q.1 == u) = none) :
    lookupBal (initFlushAcc store buff n).state u = 0 ∧
    wrap64 (lookupBal (initFlushAcc store buff n).state u + a) = wrap64 (0 + a) := by
  have hst : (initFlushAcc store buff n).state
      = restoreState store.balances (buff.map (fun p => p.2.userID)) := rfl
  have hz : lookupBal (initFlushAcc store buff n).state u = 0 := by
    rw [hst]
    refine lookupBal_find?_none _ u ?_
    rw [List.find?_eq_none] at h ⊢
    intro x hx
    exact h x (List.mem_of_mem_filter hx)
  exact ⟨hz, by rw [hz]⟩

theorem missing_user_reads_zero_witness :
    (wStore6.balances.find? (fun q => q.1 == "u") = none) ∧
    (lookupBal (initFlushAcc wStore6 [(0, wOp1)] 0).state "u" = 0 ∧
      wrap64 (lookupBal (initFlushAcc wStore6 [(0, wOp1)] 0).state "u" + 7) = wrap64 (0 + 7)) :=
  ⟨by decide, missing_user_reads_zero wStore6 [(0, wOp1)] 0 "u" 7 (by decide)⟩

/-- C7: against a nonnegative in-range in-memory balance, a zero-amount
operation succeeds (`Ok` callback) and appends one ledger row, and a debit
of exactly the current balance succeeds leaving balance 0 — the
insufficient-balance check rejects only strictly negative results. -/
theorem zero_amount_and_exact_debit_succeed (acc : FlushAcc) (i j : Nat) (u : UserID)
    (h0 : 0 ≤ lookupBal acc.state u) (h1 : lookupBal acc.state u < 2 ^ 63) :
    (applyOp acc (i, { userID := u, amount := 0 })).callbacks = acc.callbacks ++ [(i, none)] ∧
    (applyOp acc (i, { userID := u, amount := 0 })).txLogs
      = acc.txLogs ++ [{ txID := acc.nextTxID, userID := u, amount := 0 }] ∧
    (applyOp acc (j, { userID := u, amount := -lookupBal acc.state u })).callbacks
      = acc.callbacks ++ [(j, none)] ∧
    lookupBal (applyOp acc (j, { userID := u, amount := -lookupBal acc.state u })).state u = 0 := by
  have hz : wrap64 (lookupBal acc.state u + 0) = lookupBal acc.state u := by
    rw [add_zero]
    exact wrap64_eq_self _ (by omega) h1
  have hnz : ¬ wrap64 (lookupBal acc.state u + 0) < 0 := by
    rw [hz]
    omega
  have hd : wrap64 (lookupBal acc.state u + -lookupBal acc.state u) = 0 := by
    rw [add_neg_cancel]
    exact wrap64_eq_self 0 (by norm_num) (by norm_num)
  have hnd : ¬ wrap64 (lookupBal acc.state u + -lookupBal acc.state u) < 0 := by
    rw [hd]
    omega
  refine ⟨?_, ?_, ?_, ?_⟩
  · exact applyOp_accept_callbacks acc i ⟨u, 0⟩ hnz
  · exact applyOp_accept_txLogs acc i ⟨u, 0⟩ hnz
  · exact applyOp_accept_callbacks acc j ⟨u, -lookupBal acc.state u⟩ hnd
  · rw [applyOp_accept_state acc j ⟨u, -lookupBal acc.state u⟩ hnd, lookupBal_setBal, if_pos rfl]
    exact hd

theorem zero_amount_and_exact_debit_succeed_witness :
    (0 ≤ lookupBal wAcc7.state "u") ∧ (lookupBal wAcc7.state "u" < 2 ^ 63) ∧
    ((applyOp wAcc7 (0, { userID := "u", amount := 0 })).callbacks
        = wAcc7.callbacks ++ [(0, none)] ∧
      (applyOp wAcc7 (0, { userID := "u", amount := 0 })).txLogs
        = wAcc7.txLogs ++ [{ txID := wAcc7.nextTxID, userID := "u", amount := 0 }] ∧
      (applyOp wAcc7 (1, { userID := "u", amount := -lookupBal wAcc7.state "u" })).callbacks
        = wAcc7.callbacks ++ [(1, none)] ∧
      lookupBal (applyOp wAcc7
        (1, { userID := "u", amount := -lookupBal wAcc7.state "u" })).state "u" = 0) :=
  ⟨by decide, by decide,
    zero_amount_and_exact_debit_succeed wAcc7 0 1 "u" (by decide) (by decide)⟩

/-- C8: if the periodic snapshot refresh fails at any point of the scan,
the process-wide snapshot map is left unchanged (the swap happens only
after the new map is fully built without error), so readers keep seeing the
previous snapshot. -/
theorem refresh_failure_keeps_snapshot (rows : List (Option (String × Bool)))
    (cache : List (String × Bool)) (h : none ∈ rows) :
    updateFeatureActiveCache rows cache = (cache, true) := by
  unfold updateFeatureActiveCache
  rw [iterFeatures_error rows h []]

theorem refresh_failure_keeps_snapshot_witness :
    (none ∈ [some ("f", true), none]) ∧
    updateFeatureActiveCache [some ("f", true), none] [("f", false)] = ([("f", false)], true) :=
  ⟨by decide, refresh_failure_keeps_snapshot [some ("f", true), none] [("f", false)] (by decide)⟩

/-- C9: for a wave of callers coalescing on one key — a leader that finds
the key idle followed by any number of callers arriving while the query is
in flight — exactly one underlying store query is started, and on
completion every caller of the wave is delivered the leader's result: the
same value and the same error. -/
theorem singleflight_coalesces (s : SFState) (c0 : Nat) (cs : List Nat)
    (r : Bool × Option Unit) (h : s.inFlight = none) :
    (sfRun s (SFEvent.call c0 :: (cs.map SFEvent.call ++ [SFEvent.complete r]))).queries
      = s.queries + 1 ∧
    (sfRun s (SFEvent.call c0 :: (cs.map SFEvent.call ++ [SFEvent.complete r]))).delivered
      = s.delivered ++ (c0 :: cs).map (fun c => (c, r)) := by
  obtain ⟨inf, q, d⟩ := s
  simp only at h
  subst h
  have h1 : sfRun { inFlight := none, queries := q, delivered := d }
      (SFEvent.call c0 :: (cs.map SFEvent.call ++ [SFEvent.complete r]))
      = sfRun { inFlight := some [c0], queries := q + 1, delivered := d }
          (cs.map SFEvent.call ++ [SFEvent.complete r]) := rfl
  rw [h1]
  have h3 : sfRun { inFlight := some [c0], queries := q + 1, delivered := d }
      (cs.map SFEvent.call ++ [SFEvent.complete r])
      = sfStep (sfRun { inFlight := some [c0], queries := q + 1, delivered := d }
          (cs.map SFEvent.call)) (SFEvent.complete r) := by
    simp [sfRun, List.foldl_append]
  rw [h3, sfRun_joins_waiters]
  constructor
  · rfl
  · simp [sfStep]

theorem singleflight_coalesces_witness :
    wSFInit.inFlight = none ∧
    ((sfRun wSFInit (SFEvent.call 1 :: ([2, 3].map SFEvent.call
          ++ [SFEvent.complete (true, none)]))).queries = wSFInit.queries + 1 ∧
      (sfRun wSFInit (SFEvent.call 1 :: ([2, 3].map SFEvent.call
          ++ [SFEvent.complete (true, none)]))).delivered
        = wSFInit.delivered ++ (1 :: [2, 3]).map (fun c => (c, ((true : Bool), (none : Option Unit))))) :=
  ⟨rfl, singleflight_coalesces wSFInit 1 [2, 3] (true, none) rfl⟩

/-- C10: the snapshot-cache reader returns `featureInactive` exactly when
the key is absent from the current snapshot or maps to `false` (absent keys
read as `false`), it can return no other error, and the `/f3` handler's 500
branch is unreachable. -/
theorem cache_reader_no_server_error (cache : List (String × Bool)) (feature : String) :
    (ensureFeatureActiveWithCache cache feature = some AppErr.featureInactive ↔
      lookupBool cache feature = false) ∧
    (ensureFeatureActiveWithCache cache feature = none ∨
      ensureFeatureActiveWithCache cache feature = some AppErr.featureInactive) ∧
    handleF3 cache ≠ HTTPResp.serverError := by
  refine ⟨?_, ?_, ?_⟩
  · by_cases h : lookupBool cache feature <;> simp [ensureFeatureActiveWithCache, h]
  · by_cases h : lookupBool cache feature <;> simp [ensureFeatureActiveWithCache, h]
  · unfold handleF3
    by_cases h : lookupBool cache "f" <;> simp [ensureFeatureActiveWithCache, h]

theorem cache_reader_no_server_error_witness :
    (ensureFeatureActiveWithCache [("f", true)] "f" = some AppErr.featureInactive ↔
      lookupBool [("f", true)] "f" = false) ∧
    (ensureFeatureActiveWithCache [("f", true)] "f" = none ∨
      ensureFeatureActiveWithCache [("f", true)] "f" = some AppErr.featureInactive) ∧
    handleF3 [("f", true)] ≠ HTTPResp.serverError :=
  cache_reader_no_server_error [("f", true)] "f"

end NCD
